import Mathlib

/-!
Shallow embedding of `scraper_mauser.py` (Mauser price/stock monitor) and
verification of its specification claims.

Modelling conventions:
* Python strings are Lean `String`s; character-level operations
  (`str.replace` of single characters) are modelled on `List Char`.
* Python `float` values produced by `normalize_price` are modelled as exact
  rationals (`ℚ`); the decimal strings involved are exactly representable,
  so no binary-rounding artefacts are modelled.
* Compiled regular expressions are abstracted as a search function
  `String → Option String` returning capture group 1 on a match and `none`
  otherwise (`re.search(pat, s)` followed by `m.group(1)`).
* A parsed HTML document (`BeautifulSoup`) is abstracted as its
  `select_one` behaviour: a map from CSS selector to the first matching
  node's text (`none` when no node matches); `get_text(strip=True)` is
  modelled by `pyStrip` applied to that text.
* Python truthiness of an optional string (`if not val:`) is `none` or the
  empty string.
-/

/-- Python truthiness of a string: nonempty. -/
def pyTruthy (s : String) : Bool := !s.data.isEmpty

/-- Python truthiness of an optional string: present and nonempty. -/
def truthyStr (s : Option String) : Bool :=
  match s with
  | none => false
  | some t => pyTruthy t

/-! ### Price normalizer (`normalize_price`, lines 104–112)

`normalize_price` strips `€`, spaces and non-breaking spaces, removes `.`
(thousands grouping), turns `,` into `.`, and feeds the result to Python's
`float`, rounding to 2 decimal places; any parse failure yields `None`. -/

/-- One `str.replace(x, "")` pass: drop every occurrence of the character. -/
def removeChar (x : Char) : List Char → List Char
  | [] => []
  | c :: l => if c = x then removeChar x l else c :: removeChar x l

/-- One `str.replace(x, y)` pass for single characters. -/
def mapChar (x y : Char) : List Char → List Char
  | [] => []
  | c :: l => (if c = x then y else c) :: mapChar x y l

/-- Line 107: `val.replace("€","").replace(" ","").replace(" ","")`. -/
def cleanChars (l : List Char) : List Char :=
  removeChar '\u00A0' (removeChar ' ' (removeChar '€' l))

/-- Line 108: `v.replace(".","").replace(",",".")`. -/
def dotCommaChars (l : List Char) : List Char :=
  mapChar ',' '.' (removeChar '.' l)

/-- ASCII decimal digit test (the digits Python's `float` accepts in the
inputs this program feeds it). -/
def isDigitChar (c : Char) : Bool := 48 ≤ c.toNat && c.toNat ≤ 57

/-- Numeric value of an ASCII digit character. -/
def digitVal (c : Char) : Nat := c.toNat - 48

/-- Longest digit run at the front of the list, and the rest. -/
def takeDigits : List Char → List Char × List Char
  | [] => ([], [])
  | c :: l =>
    if isDigitChar c then
      ((c :: (takeDigits l).1), (takeDigits l).2)
    else ([], c :: l)

/-- Value of a digit string, most significant first. -/
def digitsToNat (l : List Char) : Nat :=
  l.foldl (fun a c => 10 * a + digitVal c) 0

/-- Value of a digit list, most significant first. -/
def natOfDigits (l : List Nat) : Nat :=
  l.foldl (fun a d => 10 * a + d) 0

/-- A whole list of digits, as for an exponent. -/
def parseDigitsAll (l : List Char) : Option Nat :=
  if (takeDigits l).1 ≠ [] ∧ (takeDigits l).2 = [] then
    some (digitsToNat (takeDigits l).1)
  else none

/-- Optional exponent suffix of a Python float literal (`e`/`E`, optional
sign, digits); `none` on a malformed suffix, `some 0` when absent. -/
def parseExponent : List Char → Option Int
  | [] => some 0
  | c :: r =>
    if c = 'e' ∨ c = 'E' then
      match r with
      | '-' :: r2 => (parseDigitsAll r2).map (fun n => -(n : Int))
      | '+' :: r2 => (parseDigitsAll r2).map (fun n => (n : Int))
      | r2 => (parseDigitsAll r2).map (fun n => (n : Int))
    else none

/-- Unsigned part of Python's `float` on a decimal literal:
`digits [. digits] [exponent]`, at least one mantissa digit. -/
def pyFloatUnsigned (l : List Char) : Option ℚ :=
  match (takeDigits l).2 with
  | [] => if (takeDigits l).1 = [] then none else some ((digitsToNat (takeDigits l).1 : ℚ))
  | c :: r2 =>
    if c = '.' then
      if (takeDigits l).1 = [] ∧ (takeDigits r2).1 = [] then none
      else
        match parseExponent (takeDigits r2).2 with
        | some e =>
          some (((digitsToNat (takeDigits l).1 : ℚ) +
                 (digitsToNat (takeDigits r2).1 : ℚ) / 10 ^ (takeDigits r2).1.length) *
                (10 : ℚ) ^ e)
        | none => none
    else
      if (takeDigits l).1 = [] then none
      else
        match parseExponent (c :: r2) with
        | some e => some ((digitsToNat (takeDigits l).1 : ℚ) * (10 : ℚ) ^ e)
        | none => none

/-- Python's `float(s)` on decimal literals: optional sign then unsigned
literal.  (The special forms `inf`/`nan`/underscore separators never arise
from this program's inputs and are not modelled.) -/
def pyFloat : List Char → Option ℚ
  | [] => none
  | c :: l =>
    if c = '-' then (pyFloatUnsigned l).map (fun q => -q)
    else if c = '+' then pyFloatUnsigned l
    else pyFloatUnsigned (c :: l)

/-- Round-half-to-even to the nearest integer, as Python's `round`. -/
def roundHalfEven (q : ℚ) : ℤ :=
  if q - ⌊q⌋ = 1 / 2 then (if ⌊q⌋ % 2 = 0 then ⌊q⌋ else ⌊q⌋ + 1)
  else round q

/-- Python's `round(x, 2)`. -/
def pyRound2 (q : ℚ) : ℚ := (roundHalfEven (q * 100) : ℚ) / 100

/-- Lines 104–112: `normalize_price`.  `if not val: return None`; strip
currency symbol and spaces; drop `.`; `,` becomes `.`; parse as float and
round to 2 places; on parse failure (`except`) return `None`. -/
def normalize_price (val : Option String) : Option ℚ :=
  match val with
  | none => none
  | some s =>
    if !(pyTruthy s) then none
    else
      match pyFloat (dotCommaChars (cleanChars s.data)) with
      | some q => some (pyRound2 q)
      | none => none

/-! ### Field extractor (`extract_with_selector`, lines 81–93, and
`extract_from_html`, lines 95–102) -/

/-- Whitespace as stripped by `get_text(strip=True)`. -/
def isSpaceChar (c : Char) : Bool := c = ' ' ∨ c = '\t' ∨ c = '\n' ∨ c = '\r'

/-- Leading and trailing whitespace removed. -/
def stripChars (l : List Char) : List Char :=
  ((l.dropWhile isSpaceChar).reverse.dropWhile isSpaceChar).reverse

/-- Python-style `strip`, as applied by `get_text(strip=True)` to the
node's text. -/
def pyStrip (s : String) : String := String.mk (stripChars s.data)

/-- A compiled regular expression, abstracted as its
`re.search` + `m.group(1)` behaviour: `some g` when the pattern matches
with first capture group `g`, `none` when it does not match. -/
structure Regex where
  search1 : String → Option String

/-- A parsed document, abstracted as its `select_one` behaviour: the text
content of the first node matching a CSS selector, or `none`. -/
structure Soup where
  selectOne : String → Option String

/-- Lines 81–93: `extract_with_selector`.  `if not selector: return None`;
`select_one`; if no node, `None`; take stripped text; if a regex is
configured and matches, return group 1; otherwise return the text. -/
def extract_with_selector (soup : Soup) (selector : Option String)
    (regex : Option Regex) : Option String :=
  if truthyStr selector then
    match soup.selectOne (selector.getD "") with
    | none => none
    | some el =>
      match regex with
      | some r =>
        match r.search1 (pyStrip el) with
        | some g => some g
        | none => some (pyStrip el)
      | none => some (pyStrip el)
  else none

/-- Lines 95–102: `extract_from_html`, the whole-document fallback:
apply the configured regex (flags `IGNORECASE | DOTALL` are part of the
abstracted matcher) to the raw HTML. -/
def extract_from_html (html : String) (regex_full_html : Option Regex) :
    Option String :=
  match regex_full_html with
  | none => none
  | some r => r.search1 html

/-- Per-field extraction configuration (`price:` / `stock:` mapping in the
config: `selector`, `regex`, `regex_full_html`, each optional). -/
structure FieldCfg where
  selector : Option String
  regex : Option Regex
  regex_full_html : Option Regex

/-- Lines 125–132 of `fetch_product`, for one field: try the selector
first; if the result is falsy (`if not raw_price:`), fall back to the
whole-document regex. -/
def rawField (soup : Soup) (html : String) (cfg : FieldCfg) : Option String :=
  if truthyStr (extract_with_selector soup cfg.selector cfg.regex) then
    extract_with_selector soup cfg.selector cfg.regex
  else extract_from_html html cfg.regex_full_html

/-! ### Snapshot and change detector (`fetch_product` result shape and
`diff_values`, lines 137–154) -/

/-- The dictionary built at lines 137–143 of `fetch_product`. -/
structure Snapshot where
  url : String
  name : String
  price : Option ℚ
  raw_price : Option String
  stock : Option String
deriving DecidableEq

/-- Product entry of the configuration (`url`, optional `name`, and the
two field rules). -/
structure PConf where
  url : String
  name : Option String
  price : FieldCfg
  stock : FieldCfg

/-- Lines 114–143: the pure part of `fetch_product`, given the fetched
document.  `name` is `pconf.get("name") or url`; `stock` is the raw string
or `None` when falsy; `price` is the normalized raw price. -/
def fetch_product_pure (pconf : PConf) (soup : Soup) (html : String) : Snapshot :=
  { url := pconf.url
    name := match pconf.name with
            | some n => if pyTruthy n then n else pconf.url
            | none => pconf.url
    price := normalize_price (rawField soup html pconf.price)
    raw_price := rawField soup html pconf.price
    stock := if truthyStr (rawField soup html pconf.stock) then
               rawField soup html pconf.stock
             else none }

/-- One change detected by `diff_values`.  The source renders each change
directly as an f-string; the constructors carry exactly the values that
are interpolated into that string. -/
inductive ChangeEvent where
  | novo_registo : ChangeEvent
  | preco (old new : Option ℚ) : ChangeEvent
  | stock (old new : Option String) : ChangeEvent
deriving DecidableEq

/-- Lines 145–154: `diff_values`.  `old is None` yields the single
new-record change and returns at once; otherwise price and stock are
compared by `!=` and a change is appended for each difference. -/
def diff_values (old : Option Snapshot) (nw : Snapshot) : List ChangeEvent :=
  match old with
  | none => [ChangeEvent.novo_registo]
  | some o =>
    (if o.price ≠ nw.price then [ChangeEvent.preco o.price nw.price] else []) ++
    (if o.stock ≠ nw.stock then [ChangeEvent.stock o.stock nw.stock] else [])

/-! ### Run orchestrator (`main`, lines 156–198)

The product loop (lines 176–192) is modelled as a fold over the configured
products.  The outcome of `fetch_product` for a product — which performs
network I/O — is supplied as an oracle `fetch : PConf → Except String
Snapshot`; `Except.error e` models an exception raised during
fetch/snapshot, caught by the `except` clause at line 189.  The Python
`state` dict is modelled as a total lookup function; notification strings
are abstracted into a `Msg` value carrying the interpolated data. -/

/-- The `state` dict: product URL to last stored snapshot. -/
abbrev StateMap := String → Option Snapshot

/-- One entry of `changes_msgs`: either the per-product change message
built at lines 184–186 or the error line built at line 190
(`":x: Erro ao ler {name or url}: {e}"`). -/
inductive Msg where
  | change (p : PConf) (snap : Snapshot) (events : List ChangeEvent) : Msg
  | error (p : PConf) (e : String) : Msg

/-- Lines 177–192: one iteration of the product loop.  On success the
snapshot is stored unconditionally under `data["url"]` and a change
message is appended only when `diff_values` returned a nonempty list; on
exception the state is untouched and an error line is appended. -/
def processProduct (fetch : PConf → Except String Snapshot)
    (acc : StateMap × List Msg) (p : PConf) : StateMap × List Msg :=
  match fetch p with
  | Except.ok d =>
    (fun u => if u = d.url then some d else acc.1 u,
     if (diff_values (acc.1 d.url) d).isEmpty then acc.2
     else acc.2 ++ [Msg.change p d (diff_values (acc.1 d.url) d)])
  | Except.error e => (acc.1, acc.2 ++ [Msg.error p e])

/-- Lines 176–192: the whole product loop. -/
def runLoop (fetch : PConf → Except String Snapshot) (ps : List PConf)
    (acc : StateMap × List Msg) : StateMap × List Msg :=
  ps.foldl (processProduct fetch) acc

/-- The `login:` section of the configuration. -/
structure LoginCfg where
  login_page : String
  post_url : String
  user_field : String
  pass_field : String

/-- The parsed configuration file. -/
structure Config where
  login : LoginCfg
  products : List PConf

/-- Observable side effects of a run, in order. -/
inductive Effect where
  | httpGet (url : String) : Effect
  | httpPost (url : String) : Effect
  | save (st : StateMap) : Effect
  | notify (msgs : List Msg) : Effect

/-- Lines 59–73: network requests issued by `login_mauser` (GET the login
page, POST the credentials, GET the login page again to check). -/
def loginEffects (lg : LoginCfg) : List Effect :=
  [Effect.httpGet lg.login_page, Effect.httpPost lg.post_url,
   Effect.httpGet lg.login_page]

/-- Line 161: the message of the `RuntimeError` raised on missing
credentials. -/
def credsError : String := "Define MAUSER_USERNAME e MAUSER_PASSWORD em Secrets/ENV."

/-- Lines 156–198: `main`, as the sequence of observable effects it
produces.  The credential check (`if not (MAUSER_USER and MAUSER_PASS)`)
runs before anything else; when it fails the `RuntimeError` is raised and
no effect — in particular no network request — happens.  Otherwise login
runs, each configured product is fetched (one GET per product, results
given by the `fetch` oracle), and after the full loop the state is saved
exactly once and one aggregate notification is sent.  (`login_mauser`
always returns `True` at lines 77/79, so the early-return branch at
lines 170–172 is dead and is not modelled.) -/
def mainRun (user pw : Option String) (cfg : Config) (st0 : StateMap)
    (fetch : PConf → Except String Snapshot) : Except String (List Effect) :=
  if truthyStr user && truthyStr pw then
    Except.ok (loginEffects cfg.login ++
      cfg.products.map (fun p => Effect.httpGet p.url) ++
      [Effect.save (runLoop fetch cfg.products (st0, [])).1,
       Effect.notify (runLoop fetch cfg.products (st0, [])).2])
  else Except.error credsError

/-! ### Claims about the change detector -/

/-- C3: for every snapshot `S`, `diff_values None S` (no previously stored
snapshot for the URL) yields exactly the single new-record change and
nothing else, whatever `S`'s fields are; no price or stock comparison is
performed in that case. -/
theorem claim_C3 (S : Snapshot) : diff_values none S = [ChangeEvent.novo_registo] := rfl

/-- C7: comparing a snapshot against an identical one yields no changes,
including when its price and stock are both `none`. -/
theorem claim_C7 (S : Snapshot) : diff_values (some S) S = [] := by
  simp [diff_values]

/-- C6: when stocks agree and prices differ, `diff_values` yields exactly
one price change, carrying the old and the new price, and no stock
change. -/
theorem claim_C6 (S1 S2 : Snapshot) (hp : S1.price ≠ S2.price)
    (hs : S1.stock = S2.stock) :
    diff_values (some S1) S2 = [ChangeEvent.preco S1.price S2.price] := by
  simp [diff_values, hp, hs]

/-- Witness for C6 at a concrete pair of snapshots. -/
theorem claim_C6_witness :
    (⟨"u", "n", some 1, none, none⟩ : Snapshot).price ≠
      (⟨"u", "n", some 2, none, none⟩ : Snapshot).price ∧
    diff_values (some ⟨"u", "n", some 1, none, none⟩) ⟨"u", "n", some 2, none, none⟩ =
      [ChangeEvent.preco (some 1) (some 2)] :=
  ⟨by decide, claim_C6 _ _ (by decide) rfl⟩

/-! ### Claims about the price normalizer -/

/-- C8: `normalize_price` returns `none` (and never raises) for absent,
empty, or unparseable input, and in general whenever the cleaned form
fails to parse as a number. -/
theorem claim_C8 :
    normalize_price none = none ∧
    normalize_price (some "") = none ∧
    normalize_price (some "abc") = none ∧
    ∀ s : String, pyFloat (dotCommaChars (cleanChars s.data)) = none →
      normalize_price (some s) = none := by
  refine ⟨rfl, rfl, by decide, ?_⟩
  intro s h
  unfold normalize_price
  cases hT : pyTruthy s <;> simp [hT, h]

/-- Witness for C8's unparseable-input clause at a concrete string. -/
theorem claim_C8_witness : normalize_price (some "x,y") = none :=
  claim_C8.2.2.2 "x,y" (by decide)

/-! ### Claims about the run orchestrator -/

/-- Equation for a loop iteration whose fetch raises. -/
lemma processProduct_error_eq (fetch : PConf → Except String Snapshot)
    (acc : StateMap × List Msg) (p : PConf) (e : String)
    (h : fetch p = Except.error e) :
    processProduct fetch acc p = (acc.1, acc.2 ++ [Msg.error p e]) := by
  unfold processProduct
  rw [h]

/-- `runLoop` on a cons steps through `processProduct`. -/
lemma runLoop_cons (fetch : PConf → Except String Snapshot) (p : PConf)
    (ps : List PConf) (acc : StateMap × List Msg) :
    runLoop fetch (p :: ps) acc = runLoop fetch ps (processProduct fetch acc p) := rfl

/-- A loop iteration only ever appends to the message list. -/
lemma processProduct_msgs_append (fetch : PConf → Except String Snapshot)
    (acc : StateMap × List Msg) (p : PConf) :
    ∃ t, (processProduct fetch acc p).2 = acc.2 ++ t := by
  unfold processProduct
  cases h : fetch p with
  | ok d =>
    dsimp only
    split
    · exact ⟨[], (List.append_nil _).symm⟩
    · exact ⟨_, rfl⟩
  | error e => exact ⟨_, rfl⟩

/-- The loop only ever appends to the message list. -/
lemma runLoop_msgs_append (fetch : PConf → Except String Snapshot)
    (ps : List PConf) :
    ∀ acc : StateMap × List Msg, ∃ t, (runLoop fetch ps acc).2 = acc.2 ++ t := by
  induction ps with
  | nil => exact fun acc => ⟨[], (List.append_nil _).symm⟩
  | cons p ps ih =>
    intro acc
    obtain ⟨t1, h1⟩ := processProduct_msgs_append fetch acc p
    obtain ⟨t2, h2⟩ := ih (processProduct fetch acc p)
    exact ⟨t1 ++ t2, by rw [runLoop_cons, h2, h1, List.append_assoc]⟩

/-- C4: when a product's fetch and snapshot succeed, its loop iteration
overwrites the state entry for the snapshot's URL with the new snapshot —
whatever `diff_values` returned and whatever the snapshot's fields are —
and leaves the entry of every other URL unchanged. -/
theorem claim_C4 (fetch : PConf → Except String Snapshot) (p : PConf)
    (d : Snapshot) (st : StateMap) (ms : List Msg) (u : String)
    (h : fetch p = Except.ok d) (hu : u ≠ d.url) :
    (processProduct fetch (st, ms) p).1 d.url = some d ∧
    (processProduct fetch (st, ms) p).1 u = st u := by
  unfold processProduct
  rw [h]
  exact ⟨by simp, by simp [hu]⟩

/-- A snapshot with empty price and stock, for witnesses. -/
def snapW : Snapshot := ⟨"u1", "u1", none, none, none⟩

/-- An extraction rule with nothing configured, for witnesses. -/
def fcfg0 : FieldCfg := ⟨none, none, none⟩

/-- A product configuration, for witnesses. -/
def pW : PConf := ⟨"u1", none, fcfg0, fcfg0⟩

/-- Witness for C4: the fetched snapshot has `none` price and stock and
the stored snapshot is identical, so `diff_values` reports no changes,
yet the entry is overwritten and the other URL is untouched. -/
theorem claim_C4_witness :
    (fun _ => Except.ok snapW : PConf → Except String Snapshot) pW = Except.ok snapW ∧
    ("u2" : String) ≠ snapW.url ∧
    (processProduct (fun _ => Except.ok snapW) ((fun _ => some snapW), []) pW).1 snapW.url =
      some snapW ∧
    (processProduct (fun _ => Except.ok snapW) ((fun _ => some snapW), []) pW).1 "u2" =
      some snapW :=
  ⟨rfl, by decide, claim_C4 _ pW snapW _ [] "u2" rfl (by decide)⟩

/-- C10: when a product's fetch raises, its loop iteration leaves the
whole state map unchanged: every previously stored snapshot persists
as-is. -/
theorem claim_C10 (fetch : PConf → Except String Snapshot) (p : PConf)
    (e : String) (st : StateMap) (ms : List Msg)
    (h : fetch p = Except.error e) :
    (processProduct fetch (st, ms) p).1 = st := by
  unfold processProduct
  rw [h]

/-- Witness for C10 at a concrete failing fetch. -/
theorem claim_C10_witness :
    (fun _ => Except.error "boom" : PConf → Except String Snapshot) pW = Except.error "boom" ∧
    (processProduct (fun _ => Except.error "boom") ((fun _ => some snapW), []) pW).1 =
      (fun _ => some snapW) :=
  ⟨rfl, claim_C10 _ pW "boom" _ [] rfl⟩

/-- C9: when either credential is missing from the environment, `main`
raises the fatal `RuntimeError` with its message before anything else: the
run produces no effect at all, in particular no login request and no
product fetch. -/
theorem claim_C9 (user pw : Option String) (cfg : Config) (st0 : StateMap)
    (fetch : PConf → Except String Snapshot) (h : user = none ∨ pw = none) :
    mainRun user pw cfg st0 fetch = Except.error credsError := by
  unfold mainRun
  rcases h with h | h <;> subst h <;> simp [truthyStr]

/-- A login configuration, for witnesses. -/
def lgW : LoginCfg := ⟨"https://m/login", "https://m/login/post", "user", "pass"⟩

/-- Witness for C9 with the username absent. -/
theorem claim_C9_witness :
    mainRun none (some "pw") ⟨lgW, [pW]⟩ (fun _ => none) (fun _ => Except.error "e") =
      Except.error credsError :=
  claim_C9 none (some "pw") ⟨lgW, [pW]⟩ (fun _ => none) (fun _ => Except.error "e")
    (Or.inl rfl)

/-- C5: when a product's fetch raises, the exception is caught: the loop
appends a visible error line for that product and continues with the
remaining products; the state entering the rest of the loop is untouched;
the run still finishes with exactly one state save (after the full loop)
followed by the aggregate notification, and the error line appears in the
notified message list. -/
theorem claim_C5 (fetch : PConf → Except String Snapshot) (p : PConf)
    (e : String) (ps : List PConf) (st st0 : StateMap) (ms : List Msg)
    (user pw : Option String) (lg : LoginCfg)
    (h : fetch p = Except.error e) (hu : truthyStr user = true)
    (hw : truthyStr pw = true) :
    runLoop fetch (p :: ps) (st, ms) = runLoop fetch ps (st, ms ++ [Msg.error p e]) ∧
    mainRun user pw ⟨lg, p :: ps⟩ st0 fetch =
      Except.ok (loginEffects lg ++ (p :: ps).map (fun q => Effect.httpGet q.url) ++
        [Effect.save (runLoop fetch ps (st0, [Msg.error p e])).1,
         Effect.notify (runLoop fetch ps (st0, [Msg.error p e])).2]) ∧
    Msg.error p e ∈ (runLoop fetch ps (st0, [Msg.error p e])).2 := by
  have hstep : ∀ st' : StateMap, ∀ ms' : List Msg,
      runLoop fetch (p :: ps) (st', ms') = runLoop fetch ps (st', ms' ++ [Msg.error p e]) := by
    intro st' ms'
    rw [runLoop_cons, processProduct_error_eq fetch _ p e h]
  refine ⟨hstep st ms, ?_, ?_⟩
  · unfold mainRun
    rw [hu, hw]
    simp only [Bool.and_self, if_true]
    rw [hstep st0 []]
    simp
  · obtain ⟨t, ht⟩ := runLoop_msgs_append fetch ps (st0, [Msg.error p e])
    rw [ht]
    simp

/-- Witness for C5 at a concrete run with one failing product. -/
theorem claim_C5_witness :
    (fun _ => Except.error "timeout" : PConf → Except String Snapshot) pW =
      Except.error "timeout" ∧
    (runLoop (fun _ => Except.error "timeout") [pW] ((fun _ => none), []) =
       runLoop (fun _ => Except.error "timeout") [] ((fun _ => none), [Msg.error pW "timeout"]) ∧
     mainRun (some "a") (some "b") ⟨lgW, [pW]⟩ (fun _ => none) (fun _ => Except.error "timeout") =
       Except.ok (loginEffects lgW ++ [pW].map (fun q => Effect.httpGet q.url) ++
         [Effect.save (runLoop (fun _ => Except.error "timeout") []
            ((fun _ => none), [Msg.error pW "timeout"])).1,
          Effect.notify (runLoop (fun _ => Except.error "timeout") []
            ((fun _ => none), [Msg.error pW "timeout"])).2]) ∧
     Msg.error pW "timeout" ∈
       (runLoop (fun _ => Except.error "timeout") []
         ((fun _ => none), [Msg.error pW "timeout"])).2) :=
  ⟨rfl, claim_C5 _ pW "timeout" [] _ _ [] (some "a") (some "b") lgW rfl (by decide) (by decide)⟩

/-! ### Claim about the extractor's regex-miss behaviour (C1)

The claim asserts that a selector-local regex which does not match the
node's text makes the field come out empty.  Lines 89–93 of the source
say otherwise: after a failed `re.search` the function falls through to
`return text`, handing back the node's unfiltered (stripped) text, so the
whole-document fallback is skipped because the selector step produced a
truthy value, not because the field was dropped. -/

/-- A concrete matcher for the pattern `(\d+)`: first maximal digit run. -/
def firstDigitRun : List Char → Option (List Char)
  | [] => none
  | c :: l =>
    if isDigitChar c then some (c :: (takeDigits l).1) else firstDigitRun l

/-- The regex `(\d+)` as an abstract matcher. -/
def digitRegex : Regex := ⟨fun s => (firstDigitRun s.data).map (fun l => String.mk l)⟩

/-- A document whose node `span.price` has the non-numeric text `"abc"`. -/
def soupCEx : Soup := ⟨fun sel => if sel = "span.price" then some "abc" else none⟩

/-- Raw HTML of that document; the fallback regex would match `"49"`. -/
def htmlCEx : String := "<div>49,90</div>"

/-- A field rule with selector, selector regex and fallback regex all
configured. -/
def cfgCEx : FieldCfg := ⟨some "span.price", some digitRegex, some digitRegex⟩

/-- Counterexample to C1: the selector is present, a node is found, the
selector regex does not match the node's text — yet the extraction
returns the node's unfiltered text `"abc"` rather than nothing (and the
configured, matching whole-document fallback is not engaged, but the
field is `"abc"`, not absent). -/
theorem claim_C1_counterexample :
    soupCEx.selectOne "span.price" = some "abc" ∧
    digitRegex.search1 (pyStrip "abc") = none ∧
    digitRegex.search1 htmlCEx = some "49" ∧
    extract_with_selector soupCEx (some "span.price") (some digitRegex) = some "abc" ∧
    extract_with_selector soupCEx (some "span.price") (some digitRegex) ≠ none ∧
    rawField soupCEx htmlCEx cfgCEx = some "abc" := by
  refine ⟨rfl, by decide, by decide, by decide, by decide, by decide⟩

/-- C1 as amended: when the selector finds a node and the selector-local
regex does not match the node's stripped text, the extraction returns the
node's stripped text itself (not nothing); provided that text is
non-empty, the whole-document `fallback_regex` is still not engaged, no
matter what it is and whether it would match. -/
theorem claim_C1_amended (soup : Soup) (sel t html : String) (r : Regex)
    (rfh : Option Regex)
    (hsel : pyTruthy sel = true)
    (hnode : soup.selectOne sel = some t)
    (hre : r.search1 (pyStrip t) = none)
    (hne : pyTruthy (pyStrip t) = true) :
    extract_with_selector soup (some sel) (some r) = some (pyStrip t) ∧
    rawField soup html ⟨some sel, some r, rfh⟩ = some (pyStrip t) := by
  have h1 : extract_with_selector soup (some sel) (some r) = some (pyStrip t) := by
    unfold extract_with_selector
    simp [truthyStr, hsel, hnode, hre]
  exact ⟨h1, by unfold rawField; simp [h1, truthyStr, hne]⟩

/-- Witness for the amended C1 at the counterexample document. -/
theorem claim_C1_amended_witness :
    pyTruthy "span.price" = true ∧
    soupCEx.selectOne "span.price" = some "abc" ∧
    digitRegex.search1 (pyStrip "abc") = none ∧
    pyTruthy (pyStrip "abc") = true ∧
    extract_with_selector soupCEx (some "span.price") (some digitRegex) =
      some (pyStrip "abc") ∧
    rawField soupCEx htmlCEx ⟨some "span.price", some digitRegex, some digitRegex⟩ =
      some (pyStrip "abc") :=
  ⟨by decide, rfl, by decide, by decide,
   claim_C1_amended soupCEx "span.price" "abc" htmlCEx digitRegex (some digitRegex)
     (by decide) rfl (by decide) (by decide)⟩

/-! ### Claim C2: `normalize_price` on locale-formatted prices

A raw string matching `\d{1,3}(\.\d{3})*,\d{2}` (with optional currency
symbolating and spaces, which `normalize_price` strips first) is encoded
structurally: a nonempty list of digit groups joined by `.`, a comma, and
two decimal digits. -/

/-- The character of a decimal digit. -/
def digitChar (d : Nat) : Char := Char.ofNat (48 + d)

/-- The integer part: digit groups joined by `.`. -/
def intChars : List (List Nat) → List Char
  | [] => []
  | [g] => g.map digitChar
  | g :: g2 :: gs => g.map digitChar ++ '.' :: intChars (g2 :: gs)

/-- A full price string `\d{1,3}(\.\d{3})*,\d{2}`, as characters. -/
def priceChars (gs : List (List Nat)) (d1 d2 : Nat) : List Char :=
  intChars gs ++ ',' :: [digitChar d1, digitChar d2]

lemma digitChar_facts (d : Nat) (h : d < 10) :
    isDigitChar (digitChar d) = true ∧ digitVal (digitChar d) = d ∧
    digitChar d ≠ '.' ∧ digitChar d ≠ ',' ∧
    digitChar d ≠ '-' ∧ digitChar d ≠ '+' := by
  interval_cases d <;> decide

lemma removeChar_append (x : Char) (l1 l2 : List Char) :
    removeChar x (l1 ++ l2) = removeChar x l1 ++ removeChar x l2 := by
  induction l1 with
  | nil => rfl
  | cons c l ih =>
    simp only [List.cons_append, removeChar]
    split <;> simp [ih]

lemma removeChar_of_ne (x : Char) (l : List Char) (h : ∀ c ∈ l, c ≠ x) :
    removeChar x l = l := by
  induction l with
  | nil => rfl
  | cons c l ih =>
    simp only [removeChar]
    rw [if_neg (h c (List.mem_cons_self c l)),
        ih (fun c' hc' => h c' (List.mem_cons_of_mem _ hc'))]

lemma mapChar_append (x y : Char) (l1 l2 : List Char) :
    mapChar x y (l1 ++ l2) = mapChar x y l1 ++ mapChar x y l2 := by
  induction l1 with
  | nil => rfl
  | cons c l ih => simp [mapChar, ih]

lemma mapChar_of_ne (x y : Char) (l : List Char) (h : ∀ c ∈ l, c ≠ x) :
    mapChar x y l = l := by
  induction l with
  | nil => rfl
  | cons c l ih =>
    simp only [mapChar]
    rw [if_neg (h c (List.mem_cons_self c l)),
        ih (fun c' hc' => h c' (List.mem_cons_of_mem _ hc'))]

lemma digits_map_ne (g : List Nat) (hg : ∀ d ∈ g, d < 10) (x : Char)
    (hx : ∀ d : Nat, d < 10 → digitChar d ≠ x) :
    ∀ c ∈ g.map digitChar, c ≠ x := by
  intro c hc
  rw [List.mem_map] at hc
  obtain ⟨d, hd, rfl⟩ := hc
  exact hx d (hg d hd)

lemma removeDot_intChars (gs : List (List Nat))
    (h : ∀ g ∈ gs, ∀ d ∈ g, d < 10) :
    removeChar '.' (intChars gs) = gs.flatten.map digitChar := by
  induction gs with
  | nil => rfl
  | cons g gs ih =>
    cases gs with
    | nil =>
      simp only [intChars, List.flatten_cons, List.flatten_nil, List.append_nil]
      exact removeChar_of_ne '.' (g.map digitChar)
        (digits_map_ne g (h g (List.mem_cons_self g [])) '.'
          (fun d hd => (digitChar_facts d hd).2.2.1))
    | cons g2 gs2 =>
      simp only [intChars, List.flatten_cons]
      rw [removeChar_append,
          removeChar_of_ne '.' (g.map digitChar)
            (digits_map_ne g (h g (List.mem_cons_self g _)) '.'
              (fun d hd => (digitChar_facts d hd).2.2.1))]
      have hrest : ∀ g' ∈ g2 :: gs2, ∀ d ∈ g', d < 10 :=
        fun g' hg' => h g' (List.mem_cons_of_mem _ hg')
      have : removeChar '.' ('.' :: intChars (g2 :: gs2)) =
          removeChar '.' (intChars (g2 :: gs2)) := by
        simp [removeChar]
      rw [this, ih hrest]
      simp [List.map_append]

lemma dotComma_priceChars (gs : List (List Nat)) (d1 d2 : Nat)
    (hg : ∀ g ∈ gs, ∀ d ∈ g, d < 10) (h1 : d1 < 10) (h2 : d2 < 10) :
    dotCommaChars (priceChars gs d1 d2) =
      gs.flatten.map digitChar ++ '.' :: [digitChar d1, digitChar d2] := by
  unfold dotCommaChars priceChars
  rw [removeChar_append, removeDot_intChars gs hg]
  have hd1 := digitChar_facts d1 h1
  have hd2 := digitChar_facts d2 h2
  have hrm : removeChar '.' (',' :: [digitChar d1, digitChar d2]) =
      ',' :: [digitChar d1, digitChar d2] := by
    apply removeChar_of_ne
    intro c hc
    simp only [List.mem_cons, List.not_mem_nil, or_false] at hc
    rcases hc with rfl | rfl | rfl
    · decide
    · exact hd1.2.2.1
    · exact hd2.2.2.1
  rw [hrm, mapChar_append,
      mapChar_of_ne ',' '.' (gs.flatten.map digitChar)
        (digits_map_ne gs.flatten
          (fun d hd => by
            rw [List.mem_flatten] at hd
            obtain ⟨g, hgmem, hdg⟩ := hd
            exact hg g hgmem d hdg) ','
          (fun d hd => (digitChar_facts d hd).2.2.2.1))]
  simp [mapChar, if_neg hd1.2.2.2.1, if_neg hd2.2.2.2.1]

lemma takeDigits_digits_append (ds : List Nat) (h : ∀ d ∈ ds, d < 10)
    (r : List Char) (hr : ∀ c, r.head? = some c → isDigitChar c = false) :
    takeDigits (ds.map digitChar ++ r) = (ds.map digitChar, r) := by
  induction ds with
  | nil =>
    simp only [List.map_nil, List.nil_append]
    cases r with
    | nil => rfl
    | cons c t =>
      unfold takeDigits
      rw [hr c rfl]
      simp
  | cons d ds ih =>
    simp only [List.map_cons, List.cons_append]
    unfold takeDigits
    rw [(digitChar_facts d (h d (List.mem_cons_self d ds))).1]
    rw [ih (fun x hx => h x (List.mem_cons_of_mem _ hx))]
    simp

lemma foldl_digits (is : List Nat) (h : ∀ d ∈ is, d < 10) :
    ∀ a : Nat, (is.map digitChar).foldl (fun acc c => 10 * acc + digitVal c) a =
      is.foldl (fun acc d => 10 * acc + d) a := by
  induction is with
  | nil => intro a; rfl
  | cons d ds ih =>
    intro a
    simp only [List.map_cons, List.foldl_cons]
    rw [(digitChar_facts d (h d (List.mem_cons_self d ds))).2.1]
    exact ih (fun x hx => h x (List.mem_cons_of_mem _ hx)) _

lemma digitsToNat_map (is : List Nat) (h : ∀ d ∈ is, d < 10) :
    digitsToNat (is.map digitChar) = natOfDigits is :=
  foldl_digits is h 0

lemma pyFloat_digits_frac (is : List Nat) (d1 d2 : Nat) (his : is ≠ [])
    (h : ∀ d ∈ is, d < 10) (h1 : d1 < 10) (h2 : d2 < 10) :
    pyFloat (is.map digitChar ++ '.' :: [digitChar d1, digitChar d2]) =
      some ((natOfDigits is : ℚ) + ((10 * d1 + d2 : ℕ) : ℚ) / 100) := by
  obtain ⟨i0, is', rfl⟩ : ∃ i0 is', is = i0 :: is' := by
    cases is with
    | nil => exact absurd rfl his
    | cons a l => exact ⟨a, l, rfl⟩
  have hTD : takeDigits ((i0 :: is').map digitChar ++ '.' :: [digitChar d1, digitChar d2]) =
      ((i0 :: is').map digitChar, '.' :: [digitChar d1, digitChar d2]) :=
    takeDigits_digits_append _ h _ (by
      intro c hc
      simp only [List.head?_cons, Option.some.injEq] at hc
      subst hc
      decide)
  have hTD2 : takeDigits [digitChar d1, digitChar d2] = ([digitChar d1, digitChar d2], []) := by
    have := takeDigits_digits_append [d1, d2]
      (by intro x hx; simp only [List.mem_cons, List.not_mem_nil, or_false] at hx
          rcases hx with rfl | rfl <;> assumption)
      [] (by intro c hc; simp at hc)
    simpa using this
  have hcons : (i0 :: is').map digitChar ++ '.' :: [digitChar d1, digitChar d2] =
      digitChar i0 :: (is'.map digitChar ++ '.' :: [digitChar d1, digitChar d2]) := rfl
  rw [hcons]
  simp only [pyFloat]
  have hi0 := digitChar_facts i0 (h i0 (List.mem_cons_self i0 is'))
  rw [if_neg hi0.2.2.2.2.1, if_neg hi0.2.2.2.2.2]
  rw [← hcons]
  unfold pyFloatUnsigned
  rw [hTD]
  dsimp only
  rw [if_pos rfl, hTD2]
  dsimp only
  rw [if_neg (by simp)]
  simp only [parseExponent]
  have hval1 : digitsToNat ((i0 :: is').map digitChar) = natOfDigits (i0 :: is') :=
    digitsToNat_map _ h
  have hval2 : digitsToNat [digitChar d1, digitChar d2] = 10 * d1 + d2 := by
    have := digitsToNat_map [d1, d2]
      (by intro x hx; simp only [List.mem_cons, List.not_mem_nil, or_false] at hx
          rcases hx with rfl | rfl <;> assumption)
    rw [show [digitChar d1, digitChar d2] = [d1, d2].map digitChar from rfl, this]
    simp [natOfDigits, List.foldl]
  rw [hval1, hval2]
  norm_num

lemma roundHalfEven_intCast (n : ℤ) : roundHalfEven ((n : ℤ) : ℚ) = n := by
  unfold roundHalfEven
  rw [Int.floor_intCast]
  rw [if_neg (by norm_num)]
  exact round_intCast n

lemma pyRound2_natfrac (N m : ℕ) :
    pyRound2 ((N : ℚ) + (m : ℚ) / 100) = (N : ℚ) + (m : ℚ) / 100 := by
  have hq : ((N : ℚ) + (m : ℚ) / 100) * 100 = (((N * 100 + m : ℕ) : ℤ) : ℚ) := by
    push_cast
    ring
  unfold pyRound2
  rw [hq, roundHalfEven_intCast]
  push_cast
  ring

/-- C2: for every raw string whose cleaned form (currency symbol and
spaces stripped, as `normalize_price` does first) is a grouped decimal
`\d{1,3}(\.\d{3})*,\d{2}`, `normalize_price` returns the value obtained
by dropping the `.` grouping and reading `,` as the decimal point,
rounded (exactly) to two decimal places. -/
theorem claim_C2 (S : String) (gs : List (List Nat)) (d1 d2 : Nat)
    (hgs : gs ≠ [])
    (hlen1 : 1 ≤ gs.headI.length) (hlen3 : gs.headI.length ≤ 3)
    (htail : ∀ g ∈ gs.tail, g.length = 3)
    (hdig : ∀ g ∈ gs, ∀ d ∈ g, d < 10)
    (h1 : d1 < 10) (h2 : d2 < 10)
    (hS : cleanChars S.data = priceChars gs d1 d2) :
    normalize_price (some S) =
      some (((natOfDigits gs.flatten : ℚ) * 100 + 10 * (d1 : ℚ) + (d2 : ℚ)) / 100) := by
  have hflat_ne : gs.flatten ≠ [] := by
    cases gs with
    | nil => exact absurd rfl hgs
    | cons g rest =>
      have hg : g ≠ [] := by
        intro hgnil
        rw [show (g :: rest).headI = g from rfl, hgnil] at hlen1
        simp at hlen1
      simp only [List.flatten_cons, ne_eq, List.append_eq_nil]
      intro hboth
      exact hg hboth.1
  have hdig_flat : ∀ d ∈ gs.flatten, d < 10 := by
    intro d hd
    rw [List.mem_flatten] at hd
    obtain ⟨g, hgm, hdg⟩ := hd
    exact hdig g hgm d hdg
  have hpCne : priceChars gs d1 d2 ≠ [] := by
    unfold priceChars
    simp
  have hSne : pyTruthy S = true := by
    cases hdata : S.data with
    | nil =>
      rw [hdata] at hS
      exact absurd hS.symm (by simpa using hpCne)
    | cons c t => simp [pyTruthy, hdata]
  unfold normalize_price
  dsimp only
  rw [hSne]
  simp only [Bool.not_true, Bool.false_eq_true, if_false]
  rw [hS, dotComma_priceChars gs d1 d2 hdig h1 h2,
      pyFloat_digits_frac gs.flatten d1 d2 hflat_ne hdig_flat h1 h2]
  dsimp only
  rw [pyRound2_natfrac]
  have harith : ((natOfDigits gs.flatten : ℚ) + ((10 * d1 + d2 : ℕ) : ℚ) / 100) =
      ((natOfDigits gs.flatten : ℚ) * 100 + 10 * (d1 : ℚ) + (d2 : ℚ)) / 100 := by
    push_cast
    ring
  rw [harith]

/-- Witness for C2 at the spec's own example `"1.234,56 €"` (with the
currency symbol attached): the result is `1234.56`. -/
theorem claim_C2_witness :
    cleanChars ("1.234,56 €").data = priceChars [[1], [2, 3, 4]] 5 6 ∧
    normalize_price (some "1.234,56 €") =
      some (((natOfDigits ([[1], [2, 3, 4]] : List (List Nat)).flatten : ℚ) * 100 +
             10 * (5 : ℚ) + 6) / 100) :=
  ⟨by decide,
   claim_C2 "1.234,56 €" [[1], [2, 3, 4]] 5 6 (by decide) (by decide) (by decide)
     (by decide) (by decide) (by decide) (by decide) (by decide)⟩
